import Mathlib

/-!
Shallow embedding of the benchmark suites in
`src/cpp/pointer_chasing.cpp`, `src/go/pointer_chasing.go`,
`src/cpp/virtual_dispatch.cpp`, `src/cpp/allocation_realistic.cpp`
and the unnamed Go/C++ editions, together with proofs of the
testable properties stated in the repository's specification.

Machine integers: the accumulators in the source are 64-bit
(`long long` in C++, `int` / `int64` in Go) and the field values are
small; sums are modelled as unbounded `Int` (C++ signed overflow is
undefined behaviour, so no wrapped semantics is source-faithful).
Floating point: `double`/`float64` areas are modelled over `ℚ` with the
source constant `3.14159`; the spec's tolerance claim is settled
against the real `π` with Mathlib's bounds.
-/

namespace Bench

/-- `Point` from `pointer_chasing.cpp` / `pointer_chasing.go`:
two integer coordinate fields. -/
structure Point where
  x : Int
  y : Int
deriving DecidableEq

/-- The value-owning population built by `benchmark_value_array` /
`benchmarkValueArray`: element `i` holds `x = i`, `y = i`, stored inline
in index order. -/
def valuePoints (n : Nat) : List Point :=
  (List.range n).map (fun (i : Nat) => ⟨(i : Int), (i : Int)⟩)

/-- Dereference of a heap pointer: the heap is modelled as the list of
individually allocated records, a pointer as the allocation index. -/
def derefPoint (heap : List Point) (id : Nat) : Point :=
  heap.getD id ⟨0, 0⟩

/-- The heap store built by `benchmark_pointer_array` /
`benchmarkPointerArray`: the `i`-th `new Point{i, i}` allocation. -/
def pointerHeap (n : Nat) : List Point :=
  (List.range n).map (fun (i : Nat) => ⟨(i : Int), (i : Int)⟩)

/-- The pointer-owning population: the vector of pointers, in push
order, pointer `i` referring to the `i`-th allocation. -/
def pointerIds (n : Nat) : List Nat :=
  List.range n

/-- One contiguous pass of the timed loop:
`sum += points[i].x + points[i].y`, accumulator starting at `0`. -/
def valuePassSum (points : List Point) : Int :=
  points.foldl (fun s p => s + (p.x + p.y)) 0

/-- One scattered pass of the timed loop:
`sum += points[i]->x + points[i]->y`, dereferencing each pointer. -/
def pointerPassSum (heap : List Point) (ids : List Nat) : Int :=
  ids.foldl (fun s id => s + ((derefPoint heap id).x + (derefPoint heap id).y)) 0

/-- Per-iteration sums of `benchmark_value_array` / `benchmarkValueArray`:
the accumulator is reset to `0` at the start of each of the `k`
iterations. -/
def valueIterSums (n k : Nat) : List Int :=
  (List.range k).map (fun _ => valuePassSum (valuePoints n))

/-- Per-iteration sums of `benchmark_pointer_array` /
`benchmarkPointerArray`. -/
def pointerIterSums (n k : Nat) : List Int :=
  (List.range k).map (fun _ => pointerPassSum (pointerHeap n) (pointerIds n))

/-- The dead-code-elimination guard `if (sum < 0)` at the end of each
iteration. -/
def guardFires (s : Int) : Bool :=
  decide (s < 0)

/-- The bare accumulation `Σ (i + i)` over `0 .. n-1` that every
coordinate pass reduces to. -/
def coreSum (n : Nat) : Int :=
  (List.range n).foldl (fun s (i : Nat) => s + ((i : Int) + (i : Int))) 0

lemma foldl_congr_of_mem {α β : Type} :
    ∀ (l : List α) (g₁ g₂ : β → α → β) (a : β),
      (∀ b x, x ∈ l → g₁ b x = g₂ b x) → l.foldl g₁ a = l.foldl g₂ a := by
  intro l
  induction l with
  | nil => intro g₁ g₂ a h; rfl
  | cons x xs ih =>
    intro g₁ g₂ a h
    simp only [List.foldl_cons]
    rw [h a x (List.mem_cons_self x xs)]
    exact ih g₁ g₂ (g₂ a x) (fun b y hy => h b y (List.mem_cons_of_mem x hy))

lemma coreSum_succ (n : Nat) :
    coreSum (n + 1) = coreSum n + ((n : Int) + n) := by
  simp [coreSum, List.range_succ, List.foldl_append]

lemma coreSum_eq (n : Nat) : coreSum n = (n : Int) * ((n : Int) - 1) := by
  induction n with
  | zero => simp [coreSum]
  | succ m ih =>
    rw [coreSum_succ, ih]
    push_cast
    ring

lemma valuePassSum_eq_coreSum (n : Nat) :
    valuePassSum (valuePoints n) = coreSum n := by
  simp only [valuePassSum, valuePoints, coreSum, List.foldl_map]

lemma derefPoint_pointerHeap (n i : Nat) (h : i < n) :
    derefPoint (pointerHeap n) i = ⟨i, i⟩ := by
  unfold derefPoint pointerHeap
  rw [List.getD_eq_getElem?_getD, List.getElem?_map, List.getElem?_range h]
  rfl

lemma pointerPassSum_eq_coreSum (n : Nat) :
    pointerPassSum (pointerHeap n) (pointerIds n) = coreSum n := by
  unfold pointerPassSum pointerIds coreSum
  apply foldl_congr_of_mem
  intro b i hi
  rw [derefPoint_pointerHeap n i (List.mem_range.mp hi)]

lemma pointer_value_iter_eq (n k : Nat) :
    pointerIterSums n k = valueIterSums n k := by
  unfold pointerIterSums valueIterSums
  rw [pointerPassSum_eq_coreSum, valuePassSum_eq_coreSum]

/-- C1: for every population size and iteration count, the scattered
(pointer-owning) pass and the contiguous (value-owning) pass over
populations built by the same sequence (element `i` has `x = i`,
`y = i`) accumulate identical per-iteration sums. -/
theorem scattered_contiguous_sums_eq (n k : Nat) :
    pointerIterSums n k = valueIterSums n k :=
  pointer_value_iter_eq n k

lemma map_const_range {α : Type} (k : Nat) (c : α) :
    (List.range k).map (fun _ => c) = List.replicate k c := by
  induction k with
  | zero => rfl
  | succ m ih =>
    rw [List.range_succ, List.map_append, ih, List.replicate_succ']
    rfl

lemma valueIterSums_eq_replicate (n k : Nat) :
    valueIterSums n k = List.replicate k ((n : Int) * ((n : Int) - 1)) := by
  unfold valueIterSums
  rw [valuePassSum_eq_coreSum, coreSum_eq, map_const_range]

/-- C6: each of the `k` per-iteration sums of the contiguous and of the
scattered pass starts from a reset accumulator and ends equal to
`n * (n - 1)`, a value that is never negative, so the `if sum < 0`
guard never fires; at `n = 5` every per-iteration sum is `20`. -/
theorem iter_sums_closed_form_and_guard (n k : Nat) :
    valueIterSums n k = List.replicate k ((n : Int) * ((n : Int) - 1)) ∧
    pointerIterSums n k = List.replicate k ((n : Int) * ((n : Int) - 1)) ∧
    0 ≤ (n : Int) * ((n : Int) - 1) ∧
    (valueIterSums n k).map guardFires = List.replicate k false ∧
    valueIterSums 5 k = List.replicate k 20 ∧
    pointerIterSums 5 k = List.replicate k 20 := by
  have hv := valueIterSums_eq_replicate n k
  have hnn : 0 ≤ (n : Int) * ((n : Int) - 1) := by
    rcases Nat.eq_zero_or_pos n with h0 | h1
    · subst h0; simp
    · have : (1 : Int) ≤ (n : Int) := by exact_mod_cast h1
      nlinarith
  refine ⟨hv, ?_, hnn, ?_, ?_, ?_⟩
  · rw [pointer_value_iter_eq]; exact hv
  · rw [hv, List.map_replicate]
    have : guardFires ((n : Int) * ((n : Int) - 1)) = false := by
      simp [guardFires, not_lt, hnn]
    rw [this]
  · rw [valueIterSums_eq_replicate]; norm_num
  · rw [pointer_value_iter_eq, valueIterSums_eq_replicate]; norm_num

/-- The literal `3.14159` every `area` method in the repository uses
for π, exact over `ℚ`. -/
def piConst : ℚ := 3.14159

/-- The body shared by `VirtualCircle::area` and `Circle::area`:
`3.14159 * radius * radius` (`radius` converted to `double` first). -/
def circleAreaImpl (radius : Int) : ℚ :=
  piConst * (radius : ℚ) * (radius : ℚ)

/-- `VirtualCircle` from `virtual_dispatch.cpp`: an `int radius` plus a
vtable through which `area` is resolved per call; the vtable is
modelled as a function slot carried by the record. -/
structure VirtualCircle where
  vtableArea : Int → ℚ
  radius : Int

/-- A virtual call `circles[i].area()`: the implementation is looked up
in the record's dispatch slot. -/
def VirtualCircle.area (c : VirtualCircle) : ℚ :=
  c.vtableArea c.radius

/-- `ConcreteCircle` from `virtual_dispatch.cpp`: no vtable. -/
structure ConcreteCircle where
  radius : Int

/-- `ConcreteCircle::area`, statically resolved:
`3.14159 * radius * radius`. -/
def ConcreteCircle.area (c : ConcreteCircle) : ℚ :=
  piConst * (c.radius : ℚ) * (c.radius : ℚ)

/-- Population of `benchmark_virtual` (contiguous edition): element `i`
has radius `i` and the `VirtualCircle` implementation in its vtable. -/
def virtualCircles (n : Nat) : List VirtualCircle :=
  (List.range n).map (fun (i : Nat) => ⟨circleAreaImpl, (i : Int)⟩)

/-- Population of `benchmark_static`: element `i` has radius `i`. -/
def concreteCircles (n : Nat) : List ConcreteCircle :=
  (List.range n).map (fun (i : Nat) => ⟨(i : Int)⟩)

/-- One pass of the dynamic-dispatch loop: `sum += circles[i].area()`
through the vtable, accumulator starting at `0`. -/
def virtualPassSum (cs : List VirtualCircle) : ℚ :=
  cs.foldl (fun s c => s + c.area) 0

/-- One pass of the static-dispatch loop: `sum += circles[i].area()`
resolved at compile time. -/
def staticPassSum (cs : List ConcreteCircle) : ℚ :=
  cs.foldl (fun s c => s + c.area) 0

/-- Per-iteration totals of `benchmark_virtual` (contiguous edition). -/
def virtualIterSums (n k : Nat) : List ℚ :=
  (List.range k).map (fun _ => virtualPassSum (virtualCircles n))

/-- Per-iteration totals of `benchmark_static`. -/
def staticIterSums (n k : Nat) : List ℚ :=
  (List.range k).map (fun _ => staticPassSum (concreteCircles n))

/-- The heap store of the earlier `benchmark_virtual` edition
(`new Circle(i)` behind a `Shape*`): the `i`-th allocation is a circle
of radius `i` whose vtable holds `Circle::area`. -/
def shapeHeap (n : Nat) : List VirtualCircle :=
  (List.range n).map (fun (i : Nat) => ⟨circleAreaImpl, (i : Int)⟩)

/-- Dereference of a `Shape*`. -/
def derefShape (heap : List VirtualCircle) (id : Nat) : VirtualCircle :=
  heap.getD id ⟨circleAreaImpl, 0⟩

/-- One pass of the pointer-based dynamic-dispatch loop:
`sum += shapes[i]->area()`. -/
def shapePassSum (heap : List VirtualCircle) (ids : List Nat) : ℚ :=
  ids.foldl (fun s id => s + (derefShape heap id).area) 0

/-- Per-iteration totals of the earlier, pointer-based
`benchmark_virtual` edition. -/
def shapeIterSums (n k : Nat) : List ℚ :=
  (List.range k).map (fun _ => shapePassSum (shapeHeap n) (pointerIds n))

/-- `Circle` from the Go edition: `Radius int`. -/
structure GoCircle where
  Radius : Int

/-- `Circle.Area` in Go: `3.14159 * float64(c.Radius*c.Radius)` — the
radius square is taken in integer arithmetic first. -/
def GoCircle.Area (c : GoCircle) : ℚ :=
  piConst * ((c.Radius * c.Radius : Int) : ℚ)

/-- A Go interface value `Shape`: the boxed concrete value plus the
method resolved through the interface's dispatch table. -/
structure GoShape where
  dynVal : GoCircle
  dynArea : GoCircle → ℚ

/-- An interface call `shapes[i].Area()`. -/
def GoShape.Area (s : GoShape) : ℚ :=
  s.dynArea s.dynVal

/-- Population of `benchmarkInterface`: `shapes[i] = Circle{Radius: i}`
boxed with the `Circle.Area` method. -/
def goShapes (n : Nat) : List GoShape :=
  (List.range n).map (fun (i : Nat) => ⟨⟨(i : Int)⟩, GoCircle.Area⟩)

/-- Population of `benchmarkConcrete`: `circles[i] = Circle{Radius: i}`. -/
def goCircles (n : Nat) : List GoCircle :=
  (List.range n).map (fun (i : Nat) => ⟨(i : Int)⟩)

/-- Per-iteration totals of `benchmarkInterface`. -/
def interfaceIterSums (n k : Nat) : List ℚ :=
  (List.range k).map (fun _ => (goShapes n).foldl (fun s c => s + c.Area) 0)

/-- Per-iteration totals of `benchmarkConcrete`. -/
def concreteIterSums (n k : Nat) : List ℚ :=
  (List.range k).map (fun _ => (goCircles n).foldl (fun s c => s + c.Area) 0)

/-- The accumulation `Σ 3.14159 * i * i` over `0 .. n-1` that every
dispatch pass reduces to. -/
def areaCoreSum (n : Nat) : ℚ :=
  (List.range n).foldl (fun s (i : Nat) => s + piConst * (i : ℚ) * (i : ℚ)) 0

lemma virtualPassSum_eq_core (n : Nat) :
    virtualPassSum (virtualCircles n) = areaCoreSum n := by
  simp only [virtualPassSum, virtualCircles, areaCoreSum, List.foldl_map,
    VirtualCircle.area, circleAreaImpl]
  apply foldl_congr_of_mem
  intro b i hi
  push_cast
  ring

lemma staticPassSum_eq_core (n : Nat) :
    staticPassSum (concreteCircles n) = areaCoreSum n := by
  simp only [staticPassSum, concreteCircles, areaCoreSum, List.foldl_map,
    ConcreteCircle.area]
  apply foldl_congr_of_mem
  intro b i hi
  push_cast
  ring

lemma derefShape_shapeHeap (n i : Nat) (h : i < n) :
    derefShape (shapeHeap n) i = ⟨circleAreaImpl, (i : Int)⟩ := by
  unfold derefShape shapeHeap
  rw [List.getD_eq_getElem?_getD, List.getElem?_map, List.getElem?_range h]
  rfl

lemma shapePassSum_eq_core (n : Nat) :
    shapePassSum (shapeHeap n) (pointerIds n) = areaCoreSum n := by
  unfold shapePassSum pointerIds areaCoreSum
  apply foldl_congr_of_mem
  intro b i hi
  rw [derefShape_shapeHeap n i (List.mem_range.mp hi)]
  simp [VirtualCircle.area, circleAreaImpl]

lemma interfacePass_eq_core (n : Nat) :
    (goShapes n).foldl (fun s c => s + c.Area) 0 = areaCoreSum n := by
  unfold goShapes areaCoreSum
  rw [List.foldl_map]
  apply foldl_congr_of_mem
  intro b i hi
  simp only [GoShape.Area, GoCircle.Area]
  push_cast
  ring

lemma concretePass_eq_core (n : Nat) :
    (goCircles n).foldl (fun s c => s + c.Area) 0 = areaCoreSum n := by
  unfold goCircles areaCoreSum
  rw [List.foldl_map]
  apply foldl_congr_of_mem
  intro b i hi
  simp only [GoCircle.Area]
  push_cast
  ring

/-- C2: for every population size and iteration count, the
dynamic-dispatch pass (vtable in C++, both the contiguous and the
pointer-based edition, and interface dispatch in Go) and the
static-dispatch pass over populations with the same radii (element `i`
has radius `i`) produce equal accumulated totals per iteration. -/
theorem dynamic_static_dispatch_sums_eq (n k : Nat) :
    virtualIterSums n k = staticIterSums n k ∧
    shapeIterSums n k = staticIterSums n k ∧
    interfaceIterSums n k = concreteIterSums n k ∧
    interfaceIterSums n k = staticIterSums n k := by
  unfold virtualIterSums staticIterSums shapeIterSums interfaceIterSums concreteIterSums
  rw [virtualPassSum_eq_core, staticPassSum_eq_core, shapePassSum_eq_core,
    interfacePass_eq_core, concretePass_eq_core]
  exact ⟨rfl, rfl, rfl, rfl⟩

/-- C7: with radii `[0, 1, 2, 3]` the per-element areas of the dynamic
and the static variant are `[0, c, 4c, 9c]` for the code's constant
`c = 3.14159`, both accumulated sums equal `14c`, and that total is
within `1e-3` of `14π`. -/
theorem dispatch_areas_concrete :
    (virtualCircles 4).map VirtualCircle.area =
      [0, piConst, 4 * piConst, 9 * piConst] ∧
    (concreteCircles 4).map ConcreteCircle.area =
      [0, piConst, 4 * piConst, 9 * piConst] ∧
    virtualPassSum (virtualCircles 4) = 14 * piConst ∧
    staticPassSum (concreteCircles 4) = 14 * piConst ∧
    |((14 * piConst : ℚ) : ℝ) - 14 * Real.pi| < 1 / 1000 := by
  refine ⟨?_, ?_, ?_, ?_, ?_⟩
  · show (List.range 4).map (fun (i : Nat) =>
      VirtualCircle.area ⟨circleAreaImpl, (i : Int)⟩) = _
    simp only [VirtualCircle.area, circleAreaImpl]
    norm_num [List.range_succ, piConst]
  · show (List.range 4).map (fun (i : Nat) =>
      ConcreteCircle.area ⟨(i : Int)⟩) = _
    simp only [ConcreteCircle.area]
    norm_num [List.range_succ, piConst]
  · rw [virtualPassSum_eq_core]
    norm_num [areaCoreSum, List.range_succ, piConst]
  · rw [staticPassSum_eq_core]
    norm_num [areaCoreSum, List.range_succ, piConst]
  · have h₁ := Real.pi_gt_d6
    have h₂ := Real.pi_lt_d6
    have hc : ((14 * piConst : ℚ) : ℝ) = 43.98226 := by
      norm_num [piConst]
    rw [hc, abs_lt]
    constructor <;> nlinarith

/-- `Point` from `allocation_realistic.cpp` / `allocation_realistic.go`:
two coordinates plus a 10-slot filler payload. -/
structure RPoint where
  x : Int
  y : Int
  data : List Int
deriving DecidableEq

/-- The record built by one iteration of the realistic allocation loop:
zero-initialised (`new Point{}` / `Point{}`), then `x = i`, `y = i`. -/
def rPointAt (i : Nat) : RPoint :=
  { x := (i : Int), y := (i : Int), data := List.replicate 10 0 }

/-- The heap store built by `benchmark_heap_realistic` /
`benchmarkHeapRealistic`: the `i`-th allocation. -/
def rHeap (n : Nat) : List RPoint :=
  (List.range n).map rPointAt

/-- Dereference of a stored `Point*` in the realistic heap variant. -/
def derefRPoint (heap : List RPoint) (id : Nat) : RPoint :=
  heap.getD id (rPointAt 0)

/-- The value collection built by `benchmark_stack_realistic` /
`benchmarkStackRealistic`: records appended by value in order. -/
def rValues (n : Nat) : List RPoint :=
  (List.range n).map rPointAt

/-- The untimed pass of the heap variant: `sum += p->x + p->y` over the
stored pointers, then written to the global sink `g_sum`. -/
def heapRealisticGSum (n : Nat) : Int :=
  (pointerIds n).foldl
    (fun s id => s + ((derefRPoint (rHeap n) id).x + (derefRPoint (rHeap n) id).y)) 0

/-- The untimed pass of the value variant: `sum += p.x + p.y` over the
value collection, then written to the global sink `g_sum`. -/
def stackRealisticGSum (n : Nat) : Int :=
  (rValues n).foldl (fun s p => s + (p.x + p.y)) 0

lemma derefRPoint_rHeap (n i : Nat) (h : i < n) :
    derefRPoint (rHeap n) i = rPointAt i := by
  unfold derefRPoint rHeap
  rw [List.getD_eq_getElem?_getD, List.getElem?_map, List.getElem?_range h]
  rfl

lemma heapRealisticGSum_eq_core (n : Nat) :
    heapRealisticGSum n = coreSum n := by
  unfold heapRealisticGSum pointerIds coreSum
  apply foldl_congr_of_mem
  intro b i hi
  rw [derefRPoint_rHeap n i (List.mem_range.mp hi)]
  rfl

lemma stackRealisticGSum_eq_core (n : Nat) :
    stackRealisticGSum n = coreSum n := by
  unfold stackRealisticGSum rValues coreSum
  rw [List.foldl_map]
  rfl

/-- C8: for every `n` the heap-allocate-and-retain and the
value-allocate-and-retain variant, built by the same sequence
(element `i` gets `x = i`, `y = i`), write the identical final sum to
the global sink, and that sum is `n * (n - 1)`. -/
theorem realistic_gsums_eq (n : Nat) :
    heapRealisticGSum n = stackRealisticGSum n ∧
    heapRealisticGSum n = (n : Int) * ((n : Int) - 1) := by
  rw [heapRealisticGSum_eq_core, stackRealisticGSum_eq_core, coreSum_eq]
  exact ⟨rfl, rfl⟩

/-- Observable events of one benchmark run: a heap allocation and
release of record `id`, the two clock readings, the write of element
`i` of a value population, one timed workload pass, and the untimed
field-summing pass of the realistic allocation scenario. -/
inductive Event where
  | alloc (id : Nat)
  | free (id : Nat)
  | clockStart
  | clockStop
  | setup (i : Nat)
  | pass (iter : Nat)
  | sumPass
deriving DecidableEq

/-- Is this event the start reading of the clock? -/
def isStart : Event → Bool
  | Event.clockStart => true
  | _ => false

/-- Is this event the stop reading of the clock? -/
def isStop : Event → Bool
  | Event.clockStop => true
  | _ => false

/-- The ids allocated during a run, in order. -/
def allocsOf (t : List Event) : List Nat :=
  t.filterMap (fun e => match e with | Event.alloc i => some i | _ => none)

/-- The ids released during a run, in order. -/
def freesOf (t : List Event) : List Nat :=
  t.filterMap (fun e => match e with | Event.free i => some i | _ => none)

/-- The events preceding the first stop reading of the clock. -/
def beforeStop : List Event → List Event
  | [] => []
  | e :: rest => if isStop e then [] else e :: beforeStop rest

/-- The events preceding the first start reading of the clock. -/
def beforeStart : List Event → List Event
  | [] => []
  | e :: rest => if isStart e then [] else e :: beforeStart rest

/-- The timed region: the events between the first start reading and
the following stop reading of the clock. -/
def timedRegion : List Event → List Event
  | [] => []
  | e :: rest => if isStart e then beforeStop rest else timedRegion rest

/-- The events following the first stop reading of the clock. -/
def afterStop : List Event → List Event
  | [] => []
  | e :: rest => if isStop e then rest else afterStop rest

/-- The duration the run returns under an arbitrary cost assignment:
the total cost of the events inside the timed region. -/
def elapsedOf (cost : Event → Nat) (t : List Event) : Nat :=
  ((timedRegion t).map cost).sum

/-- Trace of `benchmark_value_array` / `benchmarkValueArray`: the value
population is written before the clock starts; the `k` passes are
timed; nothing is individually released. -/
def valueArrayTrace (n k : Nat) : List Event :=
  (List.range n).map Event.setup ++ [Event.clockStart] ++
    (List.range k).map Event.pass ++ [Event.clockStop]

/-- Trace of `benchmark_pointer_array` / `benchmarkPointerArray`: `n`
records are allocated before the clock starts, the `k` passes are
timed, and every record is deleted after the clock stops. -/
def pointerArrayTrace (n k : Nat) : List Event :=
  (List.range n).map Event.alloc ++ [Event.clockStart] ++
    (List.range k).map Event.pass ++ [Event.clockStop] ++
    (List.range n).map Event.free

/-- Trace of the pointer-based `benchmark_virtual` edition: same shape
as the pointer-array benchmark. -/
def virtualDispatchTrace (n k : Nat) : List Event :=
  (List.range n).map Event.alloc ++ [Event.clockStart] ++
    (List.range k).map Event.pass ++ [Event.clockStop] ++
    (List.range n).map Event.free

/-- Trace of `benchmark_heap_realistic` / `benchmarkHeapRealistic`: the
clock brackets exactly the allocation loop; the field-summing pass and
the per-record releases come after the stop reading. -/
def heapRealisticTrace (n : Nat) : List Event :=
  [Event.clockStart] ++ (List.range n).map Event.alloc ++
    [Event.clockStop] ++ [Event.sumPass] ++ (List.range n).map Event.free

/-- Trace of `benchmark_stack_realistic` / `benchmarkStackRealistic`:
the clock brackets the value-append loop; the field-summing pass comes
after the stop reading; nothing is individually released. -/
def stackRealisticTrace (n : Nat) : List Event :=
  [Event.clockStart] ++ (List.range n).map Event.setup ++
    [Event.clockStop] ++ [Event.sumPass]

/-- The body of the heap-allocate-and-discard loop of `benchmark_heap`
(`allocation.cpp`): iteration `i` allocates record `i` and deletes it
immediately. -/
def discardLoop : Nat → List Event
  | 0 => []
  | m + 1 => discardLoop m ++ [Event.alloc m, Event.free m]

/-- Trace of `benchmark_heap`: the whole allocate-and-discard loop runs
between the two clock readings. -/
def heapDiscardTrace (n : Nat) : List Event :=
  [Event.clockStart] ++ discardLoop n ++ [Event.clockStop]

lemma beforeStop_append_of (l t : List Event) (h : ∀ e ∈ l, isStop e = false) :
    beforeStop (l ++ t) = l ++ beforeStop t := by
  induction l with
  | nil => rfl
  | cons e es ih =>
    have he : isStop e = false := h e (List.mem_cons_self e es)
    have ih2 := ih (fun x hx => h x (List.mem_cons_of_mem e hx))
    simp [beforeStop, he, ih2]

lemma beforeStart_append_of (l t : List Event) (h : ∀ e ∈ l, isStart e = false) :
    beforeStart (l ++ t) = l ++ beforeStart t := by
  induction l with
  | nil => rfl
  | cons e es ih =>
    have he : isStart e = false := h e (List.mem_cons_self e es)
    have ih2 := ih (fun x hx => h x (List.mem_cons_of_mem e hx))
    simp [beforeStart, he, ih2]

lemma timedRegion_append_of (l t : List Event) (h : ∀ e ∈ l, isStart e = false) :
    timedRegion (l ++ t) = timedRegion t := by
  induction l with
  | nil => rfl
  | cons e es ih =>
    have he : isStart e = false := h e (List.mem_cons_self e es)
    have ih2 := ih (fun x hx => h x (List.mem_cons_of_mem e hx))
    simp [timedRegion, he, ih2]

lemma afterStop_append_of (l t : List Event) (h : ∀ e ∈ l, isStop e = false) :
    afterStop (l ++ t) = afterStop t := by
  induction l with
  | nil => rfl
  | cons e es ih =>
    have he : isStop e = false := h e (List.mem_cons_self e es)
    have ih2 := ih (fun x hx => h x (List.mem_cons_of_mem e hx))
    simp [afterStop, he, ih2]

lemma beforeStop_stop_cons (t : List Event) :
    beforeStop (Event.clockStop :: t) = [] := by
  simp [beforeStop, isStop]

lemma timedRegion_start_cons (t : List Event) :
    timedRegion (Event.clockStart :: t) = beforeStop t := by
  simp [timedRegion, isStart]

lemma afterStop_stop_cons (t : List Event) :
    afterStop (Event.clockStop :: t) = t := by
  simp [afterStop, isStop]

lemma afterStop_cons_of (e : Event) (t : List Event) (h : isStop e = false) :
    afterStop (e :: t) = afterStop t := by
  simp [afterStop, h]

lemma beforeStart_start_cons (t : List Event) :
    beforeStart (Event.clockStart :: t) = [] := by
  simp [beforeStart, isStart]

lemma mem_alloc_map_not_start {n : Nat} :
    ∀ e ∈ (List.range n).map Event.alloc, isStart e = false := by
  intro e he
  obtain ⟨i, _, rfl⟩ := List.mem_map.mp he
  rfl

lemma mem_alloc_map_not_stop {n : Nat} :
    ∀ e ∈ (List.range n).map Event.alloc, isStop e = false := by
  intro e he
  obtain ⟨i, _, rfl⟩ := List.mem_map.mp he
  rfl

lemma mem_setup_map_not_start {n : Nat} :
    ∀ e ∈ (List.range n).map Event.setup, isStart e = false := by
  intro e he
  obtain ⟨i, _, rfl⟩ := List.mem_map.mp he
  rfl

lemma mem_setup_map_not_stop {n : Nat} :
    ∀ e ∈ (List.range n).map Event.setup, isStop e = false := by
  intro e he
  obtain ⟨i, _, rfl⟩ := List.mem_map.mp he
  rfl

lemma mem_pass_map_not_stop {k : Nat} :
    ∀ e ∈ (List.range k).map Event.pass, isStop e = false := by
  intro e he
  obtain ⟨i, _, rfl⟩ := List.mem_map.mp he
  rfl

lemma allocsOf_append (s t : List Event) :
    allocsOf (s ++ t) = allocsOf s ++ allocsOf t := by
  simp [allocsOf, List.filterMap_append]

lemma freesOf_append (s t : List Event) :
    freesOf (s ++ t) = freesOf s ++ freesOf t := by
  simp [freesOf, List.filterMap_append]

lemma allocsOf_alloc_map (ids : List Nat) :
    allocsOf (ids.map Event.alloc) = ids := by
  induction ids with
  | nil => rfl
  | cons i is ih => simp [allocsOf, List.filterMap_cons] at ih ⊢; exact ih

lemma freesOf_free_map (ids : List Nat) :
    freesOf (ids.map Event.free) = ids := by
  induction ids with
  | nil => rfl
  | cons i is ih => simp [freesOf, List.filterMap_cons] at ih ⊢; exact ih

lemma freesOf_alloc_map (ids : List Nat) :
    freesOf (ids.map Event.alloc) = [] := by
  induction ids with
  | nil => rfl
  | cons i is ih => simp [freesOf, List.filterMap_cons, ih]

lemma allocsOf_free_map (ids : List Nat) :
    allocsOf (ids.map Event.free) = [] := by
  induction ids with
  | nil => rfl
  | cons i is ih => simp [allocsOf, List.filterMap_cons, ih]

lemma freesOf_pass_map (ks : List Nat) :
    freesOf (ks.map Event.pass) = [] := by
  induction ks with
  | nil => rfl
  | cons i is ih => simp [freesOf, List.filterMap_cons, ih]

lemma allocsOf_pass_map (ks : List Nat) :
    allocsOf (ks.map Event.pass) = [] := by
  induction ks with
  | nil => rfl
  | cons i is ih => simp [allocsOf, List.filterMap_cons, ih]

lemma allocsOf_setup_map (ids : List Nat) :
    allocsOf (ids.map Event.setup) = [] := by
  induction ids with
  | nil => rfl
  | cons i is ih => simp [allocsOf, List.filterMap_cons, ih]

lemma freesOf_setup_map (ids : List Nat) :
    freesOf (ids.map Event.setup) = [] := by
  induction ids with
  | nil => rfl
  | cons i is ih => simp [freesOf, List.filterMap_cons, ih]

lemma allocsOf_discardLoop (n : Nat) :
    allocsOf (discardLoop n) = List.range n := by
  induction n with
  | zero => rfl
  | succ m ih =>
    rw [discardLoop, allocsOf_append, ih, List.range_succ]
    rfl

lemma freesOf_discardLoop (n : Nat) :
    freesOf (discardLoop n) = List.range n := by
  induction n with
  | zero => rfl
  | succ m ih =>
    rw [discardLoop, freesOf_append, ih, List.range_succ]
    rfl

lemma timedRegion_pointerArrayTrace (n k : Nat) :
    timedRegion (pointerArrayTrace n k) = (List.range k).map Event.pass := by
  unfold pointerArrayTrace
  simp only [List.append_assoc, List.singleton_append, List.cons_append, List.nil_append]
  rw [timedRegion_append_of _ _ mem_alloc_map_not_start, timedRegion_start_cons,
    beforeStop_append_of _ _ mem_pass_map_not_stop,
    beforeStop_stop_cons, List.append_nil]

lemma afterStop_pointerArrayTrace (n k : Nat) :
    afterStop (pointerArrayTrace n k) = (List.range n).map Event.free := by
  unfold pointerArrayTrace
  simp only [List.append_assoc, List.singleton_append, List.cons_append, List.nil_append]
  rw [afterStop_append_of _ _ mem_alloc_map_not_stop,
    afterStop_cons_of Event.clockStart _ rfl,
    afterStop_append_of _ _ mem_pass_map_not_stop, afterStop_stop_cons]

lemma beforeStart_pointerArrayTrace (n k : Nat) :
    beforeStart (pointerArrayTrace n k) = (List.range n).map Event.alloc := by
  unfold pointerArrayTrace
  simp only [List.append_assoc, List.singleton_append, List.cons_append, List.nil_append]
  rw [beforeStart_append_of _ _ mem_alloc_map_not_start,
    beforeStart_start_cons, List.append_nil]

lemma allocsOf_pointerArrayTrace (n k : Nat) :
    allocsOf (pointerArrayTrace n k) = List.range n := by
  unfold pointerArrayTrace
  simp only [List.append_assoc]
  rw [allocsOf_append, allocsOf_append, allocsOf_append, allocsOf_append,
    allocsOf_alloc_map, allocsOf_pass_map, allocsOf_free_map]
  simp [allocsOf]

lemma freesOf_pointerArrayTrace (n k : Nat) :
    freesOf (pointerArrayTrace n k) = List.range n := by
  unfold pointerArrayTrace
  simp only [List.append_assoc]
  rw [freesOf_append, freesOf_append, freesOf_append, freesOf_append,
    freesOf_alloc_map, freesOf_pass_map, freesOf_free_map]
  simp [freesOf]

lemma freesOf_beforeStop_pointerArrayTrace (n k : Nat) :
    freesOf (beforeStop (pointerArrayTrace n k)) = [] := by
  unfold pointerArrayTrace
  simp only [List.append_assoc, List.singleton_append, List.cons_append, List.nil_append]
  rw [beforeStop_append_of _ _ mem_alloc_map_not_stop]
  rw [show beforeStop (Event.clockStart ::
      ((List.range k).map Event.pass ++ Event.clockStop ::
        (List.range n).map Event.free)) =
    Event.clockStart :: beforeStop ((List.range k).map Event.pass ++
      Event.clockStop :: (List.range n).map Event.free) by simp [beforeStop, isStop]]
  rw [beforeStop_append_of _ _ mem_pass_map_not_stop, beforeStop_stop_cons,
    List.append_nil, freesOf_append, freesOf_alloc_map]
  simp only [List.nil_append]
  rw [show Event.clockStart :: (List.range k).map Event.pass =
    [Event.clockStart] ++ (List.range k).map Event.pass from rfl]
  rw [freesOf_append, freesOf_pass_map]
  rfl

lemma timedRegion_heapRealisticTrace (n : Nat) :
    timedRegion (heapRealisticTrace n) = (List.range n).map Event.alloc := by
  unfold heapRealisticTrace
  simp only [List.append_assoc, List.singleton_append, List.cons_append, List.nil_append]
  rw [timedRegion_start_cons,
    beforeStop_append_of _ _ mem_alloc_map_not_stop,
    beforeStop_stop_cons, List.append_nil]

lemma afterStop_heapRealisticTrace (n : Nat) :
    afterStop (heapRealisticTrace n) =
      Event.sumPass :: (List.range n).map Event.free := by
  unfold heapRealisticTrace
  simp only [List.append_assoc, List.singleton_append, List.cons_append, List.nil_append]
  rw [afterStop_cons_of Event.clockStart _ rfl,
    afterStop_append_of _ _ mem_alloc_map_not_stop, afterStop_stop_cons]

lemma virtualDispatchTrace_eq_pointerArrayTrace (n k : Nat) :
    virtualDispatchTrace n k = pointerArrayTrace n k := rfl

lemma beforeStart_valueArrayTrace (n k : Nat) :
    beforeStart (valueArrayTrace n k) = (List.range n).map Event.setup := by
  unfold valueArrayTrace
  simp only [List.append_assoc, List.singleton_append, List.cons_append, List.nil_append]
  rw [beforeStart_append_of _ _ mem_setup_map_not_start,
    beforeStart_start_cons, List.append_nil]

lemma timedRegion_valueArrayTrace (n k : Nat) :
    timedRegion (valueArrayTrace n k) = (List.range k).map Event.pass := by
  unfold valueArrayTrace
  simp only [List.append_assoc, List.singleton_append, List.cons_append, List.nil_append]
  rw [timedRegion_append_of _ _ mem_setup_map_not_start, timedRegion_start_cons,
    beforeStop_append_of _ _ mem_pass_map_not_stop,
    beforeStop_stop_cons, List.append_nil]

lemma timedRegion_stackRealisticTrace (n : Nat) :
    timedRegion (stackRealisticTrace n) = (List.range n).map Event.setup := by
  unfold stackRealisticTrace
  simp only [List.append_assoc, List.singleton_append, List.cons_append, List.nil_append]
  rw [timedRegion_start_cons,
    beforeStop_append_of _ _ mem_setup_map_not_stop,
    beforeStop_stop_cons, List.append_nil]

lemma afterStop_stackRealisticTrace (n : Nat) :
    afterStop (stackRealisticTrace n) = [Event.sumPass] := by
  unfold stackRealisticTrace
  simp only [List.append_assoc, List.singleton_append, List.cons_append, List.nil_append]
  rw [afterStop_cons_of Event.clockStart _ rfl,
    afterStop_append_of _ _ mem_setup_map_not_stop, afterStop_stop_cons]

lemma freesOf_beforeStop_heapRealisticTrace (n : Nat) :
    freesOf (beforeStop (heapRealisticTrace n)) = [] := by
  unfold heapRealisticTrace
  simp only [List.append_assoc, List.singleton_append, List.cons_append, List.nil_append]
  rw [show beforeStop (Event.clockStart ::
      ((List.range n).map Event.alloc ++ Event.clockStop ::
        Event.sumPass :: (List.range n).map Event.free)) =
    Event.clockStart :: beforeStop ((List.range n).map Event.alloc ++
      Event.clockStop :: Event.sumPass :: (List.range n).map Event.free)
    by simp [beforeStop, isStop]]
  rw [beforeStop_append_of _ _ mem_alloc_map_not_stop, beforeStop_stop_cons,
    List.append_nil]
  rw [show Event.clockStart :: (List.range n).map Event.alloc =
    [Event.clockStart] ++ (List.range n).map Event.alloc from rfl]
  rw [freesOf_append, freesOf_alloc_map]
  rfl

lemma allocsOf_heapRealisticTrace (n : Nat) :
    allocsOf (heapRealisticTrace n) = List.range n := by
  unfold heapRealisticTrace
  simp only [List.append_assoc]
  rw [allocsOf_append, allocsOf_append, allocsOf_append, allocsOf_append,
    allocsOf_alloc_map, allocsOf_free_map]
  simp [allocsOf]

lemma freesOf_afterStop_heapRealisticTrace (n : Nat) :
    freesOf (afterStop (heapRealisticTrace n)) = List.range n := by
  rw [afterStop_heapRealisticTrace]
  rw [show Event.sumPass :: (List.range n).map Event.free =
    [Event.sumPass] ++ (List.range n).map Event.free from rfl]
  rw [freesOf_append, freesOf_free_map]
  rfl

lemma allocsOf_heapDiscardTrace (n : Nat) :
    allocsOf (heapDiscardTrace n) = List.range n := by
  unfold heapDiscardTrace
  simp only [List.append_assoc, List.singleton_append, List.cons_append, List.nil_append]
  rw [show Event.clockStart :: (discardLoop n ++ [Event.clockStop]) =
    [Event.clockStart] ++ (discardLoop n ++ [Event.clockStop]) from rfl]
  rw [allocsOf_append, allocsOf_append, allocsOf_discardLoop]
  simp [allocsOf]

lemma freesOf_heapDiscardTrace (n : Nat) :
    freesOf (heapDiscardTrace n) = List.range n := by
  unfold heapDiscardTrace
  simp only [List.append_assoc, List.singleton_append, List.cons_append, List.nil_append]
  rw [show Event.clockStart :: (discardLoop n ++ [Event.clockStop]) =
    [Event.clockStart] ++ (discardLoop n ++ [Event.clockStop]) from rfl]
  rw [freesOf_append, freesOf_append, freesOf_discardLoop]
  simp [freesOf]

/-- C3 counterexample: in the heap-allocate-and-discard benchmark
(`benchmark_heap`, a scenario that allocates each record individually
on the heap), already at `n = 1` the single release happens inside the
timed region and not after the clock has stopped. -/
theorem discard_frees_inside_timed_region :
    freesOf (timedRegion (heapDiscardTrace 1)) = [0] ∧
    freesOf (afterStop (heapDiscardTrace 1)) ≠ allocsOf (heapDiscardTrace 1) := by
  decide

/-- C3 (amended): in the three scenarios that build and retain a
pointer-owning population (the pointer array, the pointer-based virtual
dispatch edition, and the realistic heap variant), every allocated
record is released exactly once — no release occurs before the clock
stops and the releases after the stop are exactly the allocations, in
order; in the heap-allocate-and-discard scenario every record is
likewise released exactly once, but within the timed region. -/
theorem retained_release_discipline (n k : Nat) :
    freesOf (beforeStop (pointerArrayTrace n k)) = [] ∧
    freesOf (afterStop (pointerArrayTrace n k)) = allocsOf (pointerArrayTrace n k) ∧
    freesOf (beforeStop (virtualDispatchTrace n k)) = [] ∧
    freesOf (afterStop (virtualDispatchTrace n k)) = allocsOf (virtualDispatchTrace n k) ∧
    freesOf (beforeStop (heapRealisticTrace n)) = [] ∧
    freesOf (afterStop (heapRealisticTrace n)) = allocsOf (heapRealisticTrace n) ∧
    freesOf (heapDiscardTrace n) = allocsOf (heapDiscardTrace n) := by
  refine ⟨freesOf_beforeStop_pointerArrayTrace n k, ?_, ?_, ?_, ?_, ?_, ?_⟩
  · rw [afterStop_pointerArrayTrace, allocsOf_pointerArrayTrace, freesOf_free_map]
  · rw [virtualDispatchTrace_eq_pointerArrayTrace]
    exact freesOf_beforeStop_pointerArrayTrace n k
  · rw [virtualDispatchTrace_eq_pointerArrayTrace,
      afterStop_pointerArrayTrace, allocsOf_pointerArrayTrace, freesOf_free_map]
  · exact freesOf_beforeStop_heapRealisticTrace n
  · rw [freesOf_afterStop_heapRealisticTrace, allocsOf_heapRealisticTrace]
  · rw [freesOf_heapDiscardTrace, allocsOf_heapDiscardTrace]

/-- C4: a heap-allocate-and-discard run of `n` iterations allocates the
records `0 .. n-1` and releases exactly the records `0 .. n-1`, so the
allocation count attributable to the run returns to its pre-run
baseline. -/
theorem discard_alloc_free_balance (n : Nat) :
    allocsOf (heapDiscardTrace n) = List.range n ∧
    freesOf (heapDiscardTrace n) = List.range n ∧
    (allocsOf (heapDiscardTrace n)).length = (freesOf (heapDiscardTrace n)).length := by
  refine ⟨allocsOf_heapDiscardTrace n, freesOf_heapDiscardTrace n, ?_⟩
  rw [allocsOf_heapDiscardTrace, freesOf_heapDiscardTrace]

/-- C9: the clock readings bracket exactly the `k` timed passes, with
population construction strictly before the start reading, in the
pointer-chasing and dispatch benchmarks; in the realistic allocation
benchmarks the timed region is exactly the allocation loop, the
field-summing pass comes strictly after the stop reading, and the
returned duration is determined by the costs of the allocation events
alone. -/
theorem timing_brackets_exactly_the_passes (n k : Nat) :
    beforeStart (valueArrayTrace n k) = (List.range n).map Event.setup ∧
    timedRegion (valueArrayTrace n k) = (List.range k).map Event.pass ∧
    beforeStart (pointerArrayTrace n k) = (List.range n).map Event.alloc ∧
    timedRegion (pointerArrayTrace n k) = (List.range k).map Event.pass ∧
    timedRegion (virtualDispatchTrace n k) = (List.range k).map Event.pass ∧
    timedRegion (heapRealisticTrace n) = (List.range n).map Event.alloc ∧
    afterStop (heapRealisticTrace n) = Event.sumPass :: (List.range n).map Event.free ∧
    timedRegion (stackRealisticTrace n) = (List.range n).map Event.setup ∧
    afterStop (stackRealisticTrace n) = [Event.sumPass] ∧
    ∀ cost : Event → Nat, elapsedOf cost (heapRealisticTrace n) =
      (((List.range n).map Event.alloc).map cost).sum := by
  refine ⟨beforeStart_valueArrayTrace n k, timedRegion_valueArrayTrace n k,
    beforeStart_pointerArrayTrace n k, timedRegion_pointerArrayTrace n k, ?_,
    timedRegion_heapRealisticTrace n, afterStop_heapRealisticTrace n,
    timedRegion_stackRealisticTrace n, afterStop_stackRealisticTrace n, ?_⟩
  · rw [virtualDispatchTrace_eq_pointerArrayTrace]
    exact timedRegion_pointerArrayTrace n k
  · intro cost
    unfold elapsedOf
    rw [timedRegion_heapRealisticTrace]

/-- The per-element figure `main` derives in the pointer-chasing
benchmarks: `pointer_time / (n * iterations)` (`Nanoseconds() /
int64(n*iterations)` in Go), integer division of the non-negative
elapsed nanosecond count. -/
def perElementNs (elapsed n k : Nat) : Nat :=
  elapsed / (n * k)

/-- The per-call figure `main` derives in the dispatch benchmarks:
`virtual_time / (n * iterations)`. -/
def perCallNs (elapsed n k : Nat) : Nat :=
  elapsed / (n * k)

/-- The per-allocation figure `main` derives in the allocation
benchmarks: `heap_time / n`; the iteration count plays no role. -/
def perAllocNs (elapsed n : Nat) : Nat :=
  elapsed / n

/-- C5: for every elapsed duration the harness reports as
per-operation cost exactly `elapsed / (n * k)` in the pointer-chasing
and dispatch scenarios and exactly `elapsed / n` in the allocation
scenario, where `k` does not occur. -/
theorem per_op_derivation (t n k : Nat) :
    perElementNs t n k = t / (n * k) ∧
    perCallNs t n k = t / (n * k) ∧
    perAllocNs t n = t / n := by
  exact ⟨rfl, rfl, rfl⟩

/-- C10: the reported per-operation figure is the floor of
`elapsed / (n * k)` — it is the unique `q` with
`q * (n * k) ≤ elapsed < (q + 1) * (n * k)` — and whenever the elapsed
nanoseconds are smaller than `n * k` (resp. `n` in the allocation
scenario) the reported figure is exactly `0`, so sub-nanosecond
per-operation costs are never representable. -/
theorem per_op_truncating_division (t n k : Nat) (h : 0 < n * k) :
    perElementNs t n k * (n * k) ≤ t ∧
    t < (perElementNs t n k + 1) * (n * k) ∧
    (t < n * k → perElementNs t n k = 0) ∧
    (t < n * k → perCallNs t n k = 0) ∧
    (t < n → perAllocNs t n = 0) := by
  have h1 := Nat.div_add_mod t (n * k)
  have h2 := Nat.mod_lt t h
  refine ⟨?_, ?_, ?_, ?_, ?_⟩
  · exact Nat.div_mul_le_self t (n * k)
  · unfold perElementNs
    nlinarith [h1, h2]
  · intro hlt
    exact Nat.div_eq_of_lt hlt
  · intro hlt
    exact Nat.div_eq_of_lt hlt
  · intro hlt
    exact Nat.div_eq_of_lt hlt

/-- Witness for the truncating-division theorem at a concrete input:
an elapsed time of `5` ns over `3 * 2` operations reports `0` ns per
operation and satisfies the floor bounds. -/
theorem per_op_truncating_division_witness :
    perElementNs 5 3 2 * (3 * 2) ≤ 5 ∧
    5 < (perElementNs 5 3 2 + 1) * (3 * 2) ∧
    (5 < 3 * 2 → perElementNs 5 3 2 = 0) ∧
    (5 < 3 * 2 → perCallNs 5 3 2 = 0) ∧
    (5 < 3 → perAllocNs 5 3 = 0) :=
  per_op_truncating_division 5 3 2 (by decide)

end Bench
